import Mathlib

/-!
# Verification of the video-intelligence batching and tracking core

Shallow embedding of the detection-aggregation core of `http_server.py`:
* `calculate_iou` — bounding-box Intersection-over-Union,
* `track_objects` — greedy spatial-overlap object tracking over batched
  detections,
* the per-stream batch store manipulated by the
  `video.intelligence.detection` branch of `translate_payload`
  (`appendStage`, `ingestVI`) and by `flush_vi_batch`.

Python dict values that may be absent are modelled with `Option`; Python
floats are modelled as exact rationals (`ℚ`); dicts keyed by strings or
ints are modelled as association lists in insertion order, matching
Python's ordered dicts.  Python's stable sorts (`list.sort(reverse=True,
key=...)` and `sorted`) are modelled with `List.insertionSort`, which is
stable and hence extensionally identical to any stable sort by the same
key.
-/

namespace WS

/-- A bounding-box dict.  Each of the four numeric fields may be absent,
as in a Python dict missing that key.  (Extra keys are irrelevant to the
code and are not modelled.) -/
structure BBox where
  x? : Option ℚ
  y? : Option ℚ
  w? : Option ℚ
  h? : Option ℚ
  deriving DecidableEq, Repr

/-- The value stored under a detection's `bbox` key: either a dict
(`BVal.dict`) or some non-dict JSON value (`BVal.nonDict`), which the
grouping step's `isinstance(det.get('bbox'), dict)` test rejects. -/
inductive BVal where
  | dict (b : BBox)
  | nonDict
  deriving DecidableEq, Repr

/-- A detection dict.  Every field may be absent (key not in the dict). -/
structure Detection where
  class_name? : Option String
  confidence? : Option ℚ
  frame_id? : Option Int
  bbox? : Option BVal
  deriving DecidableEq, Repr

/-- `required_keys.issubset(bbox.keys())` for `required_keys = {x,y,w,h}`. -/
def hasKeys (b : BBox) : Bool :=
  b.x?.isSome && b.y?.isSome && b.w?.isSome && b.h?.isSome

/-- `calculate_iou(bbox1, bbox2)` from `http_server.py` lines 93-128:
validate the key set, validate positive dimensions, then
intersection-over-union with the division guarded by `union > 0`.
The `getD 0` extractions never hit their default under the `hasKeys`
guard. -/
def calculate_iou (bbox1 bbox2 : BBox) : ℚ :=
  if hasKeys bbox1 && hasKeys bbox2 then
    let x1 := bbox1.x?.getD 0
    let y1 := bbox1.y?.getD 0
    let w1 := bbox1.w?.getD 0
    let h1 := bbox1.h?.getD 0
    let x2 := bbox2.x?.getD 0
    let y2 := bbox2.y?.getD 0
    let w2 := bbox2.w?.getD 0
    let h2 := bbox2.h?.getD 0
    if w1 ≤ 0 ∨ h1 ≤ 0 ∨ w2 ≤ 0 ∨ h2 ≤ 0 then 0
    else
      let x_overlap := max 0 (min (x1 + w1) (x2 + w2) - max x1 x2)
      let y_overlap := max 0 (min (y1 + h1) (y2 + h2) - max y1 y2)
      let intersection := x_overlap * y_overlap
      let union := w1 * h1 + w2 * h2 - intersection
      if 0 < union then intersection / union else 0
  else 0

/-! ## Object tracker (`track_objects`, lines 131-227) -/

/-- An active track: `{'bbox': ..., 'last_frame': ..., 'class': ...}`. -/
structure Track where
  bbox : BBox
  last_frame : Int
  cls : String
  deriving DecidableEq, Repr

/-- Tracker state threaded through the frame loop: the `active_tracks`
dict (insertion-ordered association list), the `all_tracks` set, and
`next_track_id`. -/
structure TState where
  active : List (Nat × Track)
  all_tracks : Finset Nat
  next_track_id : Nat
  deriving DecidableEq

/-- `det.get('class_name', 'unknown')`. -/
def detClass (d : Detection) : String := d.class_name?.getD "unknown"

/-- `det['bbox']` for a detection whose bbox is a dict (the only case in
which the tracker reads it, thanks to the grouping filter). -/
def detBBox (d : Detection) : BBox :=
  match d.bbox? with
  | some (BVal.dict b) => b
  | _ => ⟨none, none, none, none⟩

/-- The grouping filter of lines 155-157:
`'bbox' in det and 'frame_id' in det and isinstance(det.get('bbox'), dict)`. -/
def validDet (d : Detection) : Bool :=
  d.bbox?.isSome && d.frame_id?.isSome &&
    (match d.bbox? with
     | some (BVal.dict _) => true
     | _ => false)

/-- The detections that survive grouping (the union of `frames` values). -/
def grouped (dets : List Detection) : List Detection := dets.filter validDet

/-- `frames[fid]`: the grouped detections of one frame, in arrival order. -/
def frameGroup (dets : List Detection) (fid : Int) : List Detection :=
  (grouped dets).filter (fun d => d.frame_id?.getD 0 = fid)

/-- The distinct frame ids, in first-appearance (dict-insertion) order. -/
def frameIdsOf (dets : List Detection) : List Int :=
  ((grouped dets).map (fun d => d.frame_id?.getD 0)).dedup

/-- `sorted(frames.keys())`. -/
def sortedFrames (dets : List Detection) : List Int :=
  (frameIdsOf dets).insertionSort (· ≤ ·)

/-- Candidate matches of one frame, in the nested-loop order of lines
183-192: for every detection (outer), for every active track (inner),
keep `(iou, tid, det_idx)` when the classes agree and
`iou >= IOU_THRESHOLD`. -/
def matchCandidates (thr : ℚ) (active : List (Nat × Track))
    (cur : List Detection) : List (ℚ × Nat × Nat) :=
  cur.enum.flatMap fun p =>
    active.filterMap fun q =>
      if q.2.cls ≠ detClass p.2 then none
      else
        let iou := calculate_iou (detBBox p.2) q.2.bbox
        if thr ≤ iou then some (iou, q.1, p.1) else none

/-- `match_candidates.sort(reverse=True, key=lambda x: x[0])`: a stable
sort descending by IoU score. -/
def sortCandidates (l : List (ℚ × Nat × Nat)) : List (ℚ × Nat × Nat) :=
  l.insertionSort (fun a b => b.1 ≤ a.1)

/-- State of the greedy assignment loop of lines 198-205. -/
structure MState where
  matchedT : List Nat
  matchedD : List Nat
  active : List (Nat × Track)

/-- In-place update of a matched track's `bbox` and `last_frame`
(lines 202-203); the dict's key set and order are unchanged. -/
def updateBBox (active : List (Nat × Track)) (tid : Nat) (b : BBox)
    (fid : Int) : List (Nat × Track) :=
  active.map fun q =>
    if q.1 = tid then (q.1, { q.2 with bbox := b, last_frame := fid }) else q

/-- One iteration of the greedy assignment loop: accept the candidate
when neither its track nor its detection is already matched. -/
def greedyStep (fid : Int) (cur : List Detection) (ms : MState)
    (c : ℚ × Nat × Nat) : MState :=
  if c.2.1 ∈ ms.matchedT ∨ c.2.2 ∈ ms.matchedD then ms
  else
    let det := cur.getD c.2.2 ⟨none, none, none, none⟩
    { matchedT := c.2.1 :: ms.matchedT
      matchedD := c.2.2 :: ms.matchedD
      active := updateBBox ms.active c.2.1 (detBBox det) fid }

/-- One iteration of the new-track loop of lines 208-216: an unmatched
detection spawns a fresh track, recorded in both the active dict and the
lifetime `all_tracks` set. -/
def createStep (fid : Int) (matchedD : List Nat) (s : TState)
    (p : Nat × Detection) : TState :=
  if p.1 ∈ matchedD then s
  else
    { active := s.active ++ [(s.next_track_id, ⟨detBBox p.2, fid, detClass p.2⟩)]
      all_tracks := insert s.next_track_id s.all_tracks
      next_track_id := s.next_track_id + 1 }

/-- Create new tracks for the unmatched detections of the frame. -/
def createTracks (fid : Int) (cur : List Detection) (matchedD : List Nat)
    (st : TState) : TState :=
  cur.enum.foldl (createStep fid matchedD) st

/-- The body of the frame loop (lines 170-216): expire old active
tracks, build and sort the candidate list, assign greedily, then spawn
new tracks for unmatched detections. -/
def stepFrame (expiry : Int) (thr : ℚ) (st : TState) (fid : Int)
    (cur : List Detection) : TState :=
  let active1 := st.active.filter fun q => fid - q.2.last_frame ≤ expiry
  let cands := sortCandidates (matchCandidates thr active1 cur)
  let ms := cands.foldl (greedyStep fid cur) ⟨[], [], active1⟩
  createTracks fid cur ms.matchedD { st with active := ms.active }

/-- The tracker's result record. -/
structure TrackStats where
  unique_count : Nat
  frames_processed : Nat
  peak_occupancy : Nat
  avg_occupancy : ℚ
  deriving DecidableEq, Repr

/-- Initial tracker state: `active_tracks = {}`, `all_tracks = set()`,
`next_track_id = 1`. -/
def initTState : TState := ⟨[], ∅, 1⟩

/-- The frame loop over the chronologically sorted frame ids. -/
def runFrames (expiry : Int) (thr : ℚ) (dets : List Detection) : TState :=
  (sortedFrames dets).foldl
    (fun st fid => stepFrame expiry thr st fid (frameGroup dets fid)) initTState

/-- `track_objects(detections)` with the two environment-derived
thresholds `VI_TRACK_EXPIRY` and `VI_IOU_THRESHOLD` passed as
parameters (defaults 30 and 0.3). -/
def track_objects (expiry : Int) (thr : ℚ) (dets : List Detection) : TrackStats :=
  if dets = [] then ⟨0, 0, 0, 0⟩
  else if grouped dets = [] then ⟨0, 0, 0, 0⟩
  else
    let fids := sortedFrames dets
    let final := runFrames expiry thr dets
    { unique_count := final.all_tracks.card
      frames_processed := fids.length
      peak_occupancy := (fids.map fun f => (frameGroup dets f).length).foldl max 0
      avg_occupancy :=
        ((fids.map fun f => ((frameGroup dets f).length : ℚ)).sum) / (fids.length : ℚ) }

/-! ## Per-stream batch store (`vi_batch_data`, `translate_payload`'s
`video.intelligence.detection` branch, `flush_vi_batch`) -/

/-- One element of a payload's `vi_data` list; the ingestion path only
reads `frame_data.get('detections', [])`. -/
structure FrameData where
  detections? : Option (List Detection)
  deriving DecidableEq

/-- A stream's batch: `{'detections': [...], 'first_seen': ..., 'last_seen': ...}`.
Wall-clock timestamps are modelled as abstract rational instants. -/
structure Batch where
  detections : List Detection
  first_seen : Option ℚ
  last_seen : Option ℚ
  deriving DecidableEq

/-- The fresh value a `defaultdict` access creates:
`{'detections': [], 'first_seen': None, 'last_seen': None}`. -/
def emptyBatch : Batch := ⟨[], none, none⟩

/-- The batch store `vi_batch_data`: an insertion-ordered dict from
stream key to batch. -/
abbrev Store := List (String × Batch)

/-- Dict lookup. -/
def lookupB : Store → String → Option Batch
  | [], _ => none
  | e :: rest, k => if e.1 = k then some e.2 else lookupB rest k

/-- Dict write: update in place when the key exists (preserving
position), otherwise append at the end — exactly a Python dict /
`defaultdict` mutation. -/
def setB : Store → String → Batch → Store
  | [], k, b => [(k, b)]
  | e :: rest, k, b => if e.1 = k then (k, b) :: rest else e :: setB rest k b

/-- Lines 449-454: the normalized record appended for each incoming
detection, with `.get` defaults `'unknown'`, `0`, `0` and `{}`. -/
def normalizeDet (r : Detection) : Detection :=
  { class_name? := some (r.class_name?.getD "unknown")
    confidence? := some (r.confidence?.getD 0)
    frame_id? := some (r.frame_id?.getD 0)
    bbox? := some (r.bbox?.getD (BVal.dict ⟨none, none, none, none⟩)) }

/-- All detections carried by one event's `vi_data`, normalized, in
order (lines 447-454). -/
def viNewDets (vi_data : List FrameData) : List Detection :=
  vi_data.flatMap fun f => (f.detections?.getD []).map normalizeDet

/-- The `with vi_batch_lock:` block of lines 438-457: `defaultdict`
access creates the batch if absent, timestamps are initialized/updated,
and every incoming detection is appended. -/
def appendStage (st : Store) (key : String) (vi_data : List FrameData)
    (now : ℚ) : Store :=
  let batch := (lookupB st key).getD emptyBatch
  let batch' : Batch :=
    { detections := batch.detections ++ viNewDets vi_data
      first_seen := some (batch.first_seen.getD now)
      last_seen := some now }
  setB st key batch'

/-- `flush_vi_batch` (lines 234-320): a no-op on an empty store;
otherwise one summary is emitted per stored stream (modelled as the
pair of the stream key and its detection count, a projection of the
Slack message) and the whole store is cleared. -/
def flush_vi_batch (st : Store) : Store × List (String × Nat) :=
  if st = [] then (st, [])
  else ([], st.map fun e => (e.1, e.2.detections.length))

/-- The `video.intelligence.detection` branch of `translate_payload`
(lines 430-472): append, then flush synchronously when the batch size
reached `VI_MAX_BATCH_SIZE` (otherwise only the window timer is armed,
which leaves the store unchanged).  Returns the new store and the
summaries emitted on this path. -/
def ingestVI (maxBatch : Nat) (st : Store) (key : String)
    (vi_data : List FrameData) (now : ℚ) : Store × List (String × Nat) :=
  let st1 := appendStage st key vi_data now
  let batch_size := ((lookupB st1 key).getD emptyBatch).detections.length
  if maxBatch ≤ batch_size then flush_vi_batch st1 else (st1, [])

/-! ## Concrete example inputs -/

/-- `{frame_id: 1, class_name: "person", bbox: {x:0,y:0,w:10,h:10}, confidence: 0.9}`. -/
def exDet1 : Detection :=
  ⟨some "person", some (9/10), some 1, some (BVal.dict ⟨some 0, some 0, some 10, some 10⟩)⟩

/-- `{frame_id: 2, class_name: "person", bbox: {x:1,y:1,w:10,h:10}, confidence: 0.8}`. -/
def exDet2 : Detection :=
  ⟨some "person", some (8/10), some 2, some (BVal.dict ⟨some 1, some 1, some 10, some 10⟩)⟩

/-- A detection whose `bbox` is a dict with none of the four numeric
fields (e.g. `{frame_id: 1, class_name: "person", bbox: {}, confidence: 0.9}`). -/
def exDetEmptyBBox : Detection :=
  ⟨some "person", some (9/10), some 1, some (BVal.dict ⟨none, none, none, none⟩)⟩

/-! ## C1: the worked tracker example -/

/-- **C1.** For the two example detections (same person moving from
`(0,0,10,10)` to `(1,1,10,10)` between frames 1 and 2), with
`IOU_THRESHOLD = 0.3` and `TRACK_EXPIRY = 30`, `track_objects` returns
`{unique_count: 1, frames_processed: 2, peak_occupancy: 1, avg_occupancy: 1.0}`. -/
theorem track_objects_example_two_frames :
    track_objects 30 (3/10) [exDet1, exDet2] =
      { unique_count := 1, frames_processed := 2, peak_occupancy := 1, avg_occupancy := 1 } := by
  with_unfolding_all decide

/-! ## C2: which malformed detections the grouping step discards -/

/-- **C2 (counterexample).** The claim says a detection whose bbox dict
is missing the four numeric fields contributes to no frame group, no
occupancy count and no track — i.e. that `track_objects` on such a
detection behaves as on the empty batch.  It does not: the detection is
grouped, counted, and spawns a track. -/
theorem grouping_keeps_fieldless_bbox :
    track_objects 30 (3/10) [exDetEmptyBBox] ≠ track_objects 30 (3/10) [] := by
  with_unfolding_all decide

/-- **C2 (amended).** During grouping, exactly the detections missing a
`frame_id` key, or whose `bbox` key is absent or holds a non-dict value,
are silently discarded; the rest of the batch is processed as if the
discarded detections were not there.  (A detection whose bbox *dict*
merely lacks the numeric fields is kept.) -/
theorem grouping_discards_only_missing_frame_or_nondict_bbox
    (e : Int) (t : ℚ) (dets : List Detection) :
    track_objects e t dets = track_objects e t (dets.filter validDet) ∧
    ∀ d : Detection, validDet d = false ↔
      (d.frame_id? = none ∨ d.bbox? = none ∨ d.bbox? = some BVal.nonDict) := by
  constructor
  · have hg : grouped (dets.filter validDet) = grouped dets := by
      simp [grouped, List.filter_filter]
    have h3 : ∀ fid, frameGroup (dets.filter validDet) fid = frameGroup dets fid := by
      intro fid; simp only [frameGroup, hg]
    have h4 : sortedFrames (dets.filter validDet) = sortedFrames dets := by
      simp only [sortedFrames, frameIdsOf, hg]
    have h5 : runFrames e t (dets.filter validDet) = runFrames e t dets := by
      unfold runFrames
      rw [h4]
      congr 1
      funext st fid
      rw [h3]
    by_cases h1 : dets = []
    · subst h1; rfl
    · by_cases h2 : grouped dets = []
      · have hf : dets.filter validDet = [] := h2
        unfold track_objects
        simp [h1, h2, hf]
      · have hf : dets.filter validDet ≠ [] := h2
        have hg2 : grouped (dets.filter validDet) ≠ [] := by rw [hg]; exact h2
        unfold track_objects
        simp only [h1, h2, hf, hg2, if_false, if_neg, h3, h4, h5]
  · intro d
    rcases d with ⟨c, cf, f, b⟩
    rcases b with _ | b
    · simp [validDet]
    · rcases b with bb | _
      · rcases f with _ | fv
        · simp [validDet]
        · simp [validDet]
      · simp [validDet]

/-! ## C5/C6: IoU degenerate cases, symmetry, self-similarity -/

/-- "No spatial overlap": the two boxes' x-projections or y-projections
are disjoint, so the clamped intersection width or height is zero. -/
def noOverlap (b1 b2 : BBox) : Prop :=
  min (b1.x?.getD 0 + b1.w?.getD 0) (b2.x?.getD 0 + b2.w?.getD 0)
      ≤ max (b1.x?.getD 0) (b2.x?.getD 0)
  ∨ min (b1.y?.getD 0 + b1.h?.getD 0) (b2.y?.getD 0 + b2.h?.getD 0)
      ≤ max (b1.y?.getD 0) (b2.y?.getD 0)

/-- The degenerate inputs of the claim: a box missing one of the four
keys, a non-positive stored width or height (`getD 1` is the stored
value whenever the key is present and never triggers by default), or no
spatial overlap. -/
def degenerateIoU (b1 b2 : BBox) : Prop :=
  hasKeys b1 = false ∨ hasKeys b2 = false
  ∨ b1.w?.getD 1 ≤ 0 ∨ b1.h?.getD 1 ≤ 0 ∨ b2.w?.getD 1 ≤ 0 ∨ b2.h?.getD 1 ≤ 0
  ∨ noOverlap b1 b2

/-- **C5.** `calculate_iou` totally evaluates to `0` on every degenerate
pair: a box missing one of `x, y, w, h`, a non-positive width or height,
or two boxes with no spatial overlap (the division is guarded, so the
no-overlap case goes through `0 / union` or the `union > 0` guard). -/
theorem calculate_iou_degenerate (b1 b2 : BBox) (h : degenerateIoU b1 b2) :
    calculate_iou b1 b2 = 0 := by
  by_cases hk : (hasKeys b1 && hasKeys b2 : Bool) = true
  case neg =>
    unfold calculate_iou
    rw [if_neg hk]
  case pos =>
    have hk2 := hk
    rw [Bool.and_eq_true] at hk2
    obtain ⟨hkb1, hkb2⟩ := hk2
    have hv1 := hkb1
    have hv2 := hkb2
    simp only [hasKeys, Bool.and_eq_true, Option.isSome_iff_exists] at hv1 hv2
    obtain ⟨⟨⟨⟨x1, hx1⟩, ⟨y1, hy1⟩⟩, ⟨w1, hw1⟩⟩, ⟨z1, hz1⟩⟩ := hv1
    obtain ⟨⟨⟨⟨x2, hx2⟩, ⟨y2, hy2⟩⟩, ⟨w2, hw2⟩⟩, ⟨z2, hz2⟩⟩ := hv2
    unfold calculate_iou
    rw [if_pos hk, hx1, hy1, hw1, hz1, hx2, hy2, hw2, hz2]
    simp only [Option.getD_some]
    rcases h with hbad | hbad | hbad | hbad | hbad | hbad | hno
    · rw [hkb1] at hbad; exact absurd hbad (by simp)
    · rw [hkb2] at hbad; exact absurd hbad (by simp)
    · rw [hw1, Option.getD_some] at hbad
      rw [if_pos (Or.inl hbad)]
    · rw [hz1, Option.getD_some] at hbad
      rw [if_pos (Or.inr (Or.inl hbad))]
    · rw [hw2, Option.getD_some] at hbad
      rw [if_pos (Or.inr (Or.inr (Or.inl hbad)))]
    · rw [hz2, Option.getD_some] at hbad
      rw [if_pos (Or.inr (Or.inr (Or.inr hbad)))]
    · by_cases hd : w1 ≤ 0 ∨ z1 ≤ 0 ∨ w2 ≤ 0 ∨ z2 ≤ 0
      · rw [if_pos hd]
      · rw [if_neg hd]
        unfold noOverlap at hno
        rw [hx1, hy1, hw1, hz1, hx2, hy2, hw2, hz2] at hno
        simp only [Option.getD_some] at hno
        rcases hno with hxo | hyo
        · have hzero : max 0 (min (x1 + w1) (x2 + w2) - max x1 x2) = 0 :=
            max_eq_left (by linarith)
          rw [hzero]
          simp [zero_div]
        · have hzero : max 0 (min (y1 + z1) (y2 + z2) - max y1 y2) = 0 :=
            max_eq_left (by linarith)
          rw [hzero]
          simp [zero_div]

/-- **C6.** IoU is symmetric for boxes with all four fields present, and
a box with positive width and height has IoU `1` with itself. -/
theorem calculate_iou_symm_and_self (b1 b2 a : BBox)
    (h1 : hasKeys b1 = true) (h2 : hasKeys b2 = true) (ha : hasKeys a = true)
    (hw : 0 < a.w?.getD 0) (hh : 0 < a.h?.getD 0) :
    calculate_iou b1 b2 = calculate_iou b2 b1 ∧ calculate_iou a a = 1 := by
  constructor
  · have hv1 := h1
    have hv2 := h2
    simp only [hasKeys, Bool.and_eq_true, Option.isSome_iff_exists] at hv1 hv2
    obtain ⟨⟨⟨⟨x1, hx1⟩, ⟨y1, hy1⟩⟩, ⟨w1, hw1⟩⟩, ⟨z1, hz1⟩⟩ := hv1
    obtain ⟨⟨⟨⟨x2, hx2⟩, ⟨y2, hy2⟩⟩, ⟨w2, hw2⟩⟩, ⟨z2, hz2⟩⟩ := hv2
    unfold calculate_iou
    rw [h1, h2, hx1, hy1, hw1, hz1, hx2, hy2, hw2, hz2]
    simp only [Bool.and_self, if_true, Option.getD_some]
    rw [min_comm (x2 + w2) (x1 + w1), max_comm x2 x1,
      min_comm (y2 + z2) (y1 + z1), max_comm y2 y1, add_comm (w2 * z2) (w1 * z1)]
    exact if_congr (by tauto) rfl rfl
  · have hva := ha
    simp only [hasKeys, Bool.and_eq_true, Option.isSome_iff_exists] at hva
    obtain ⟨⟨⟨⟨x, hx⟩, ⟨y, hy⟩⟩, ⟨w, hwv⟩⟩, ⟨z, hz⟩⟩ := hva
    rw [hwv, Option.getD_some] at hw
    rw [hz, Option.getD_some] at hh
    unfold calculate_iou
    rw [ha, hx, hy, hwv, hz]
    simp only [Bool.and_self, if_true, Option.getD_some]
    rw [if_neg (by push_neg; exact ⟨hw, hh, hw, hh⟩)]
    rw [min_self, max_self, min_self, max_self,
      add_sub_cancel_left, add_sub_cancel_left]
    rw [max_eq_right hw.le, max_eq_right hh.le, add_sub_cancel_right]
    rw [if_pos (mul_pos hw hh)]
    exact div_self (ne_of_gt (mul_pos hw hh))

/-! ## Batch-store helper lemmas -/

lemma lookupB_setB (st : Store) (k : String) (b : Batch) :
    lookupB (setB st k b) k = some b := by
  induction st with
  | nil => simp [setB, lookupB]
  | cons e rest ih =>
    by_cases h : e.1 = k
    · simp [setB, h, lookupB]
    · simp [setB, h, lookupB, ih]

lemma setB_ne_nil (st : Store) (k : String) (b : Batch) : setB st k b ≠ [] := by
  cases st with
  | nil => simp [setB]
  | cons e rest =>
    unfold setB
    split <;> simp

lemma mem_map_fst_setB (st : Store) (k : String) (b : Batch) :
    k ∈ (setB st k b).map Prod.fst := by
  induction st with
  | nil => simp [setB]
  | cons e rest ih =>
    by_cases h : e.1 = k
    · simp [setB, h]
    · simp only [setB, if_neg h, List.map_cons, List.mem_cons]
      exact Or.inr ih

lemma appendStage_ne_nil (st : Store) (key : String) (vi : List FrameData)
    (now : ℚ) : appendStage st key vi now ≠ [] := by
  unfold appendStage
  exact setB_ne_nil _ _ _

lemma lookupB_appendStage (st : Store) (key : String) (vi : List FrameData)
    (now : ℚ) :
    lookupB (appendStage st key vi now) key =
      some { detections := ((lookupB st key).getD emptyBatch).detections ++ viNewDets vi
             first_seen := some (((lookupB st key).getD emptyBatch).first_seen.getD now)
             last_seen := some now } := by
  unfold appendStage
  exact lookupB_setB _ _ _

/-! ## C3: when can a zero-detection batch entry exist? -/

/-- **C3 (counterexample).** The claim says ingesting a
`video.intelligence.detection` event never leaves a zero-detection batch
entry.  But the `defaultdict` access creates the entry before any
detection is appended, so an event whose `vi_data` carries no detections
(here: `vi_data = []`) leaves an entry with an empty detection list in
the map. -/
theorem ingest_empty_event_creates_empty_entry :
    lookupB (ingestVI 10000 [] "live|mystream" [] 0).1 "live|mystream" =
      some { detections := [], first_seen := some 0, last_seen := some 0 } := by
  with_unfolding_all decide

/-- **C3 (amended).** A stream's entry is created on the first ingested
event for that key, not on the first detection, so an event carrying no
detections leaves a zero-detection entry.  What does hold: after
ingesting an event that carries at least one detection, the key's entry
— when the early flush has not removed it from the store altogether —
holds at least that detection, so it is never a zero-detection entry. -/
theorem ingest_with_detections_leaves_nonempty_entry
    (maxB : Nat) (st : Store) (key : String) (vi : List FrameData) (now : ℚ)
    (hvi : viNewDets vi ≠ []) (b : Batch)
    (hb : lookupB (ingestVI maxB st key vi now).1 key = some b) :
    b.detections ≠ [] := by
  simp only [ingestVI] at hb
  split at hb
  · rw [flush_vi_batch, if_neg (appendStage_ne_nil st key vi now)] at hb
    simp [lookupB] at hb
  · rw [lookupB_appendStage] at hb
    obtain rfl := (Option.some_inj.mp hb).symm
    intro hdet
    rw [List.append_eq_nil] at hdet
    exact hvi hdet.2

/-! ## C4: flush on an empty store, flush drains the store -/

/-- **C4.** Flushing an empty store emits no summary; flushing a
non-empty store removes every batch, so an immediately subsequent flush
emits nothing (no duplicate summary). -/
theorem flush_empty_noop_and_flush_drains (st : Store) (hst : st ≠ []) :
    (flush_vi_batch ([] : Store)).2 = [] ∧
    (flush_vi_batch st).1 = [] ∧
    (flush_vi_batch (flush_vi_batch st).1).2 = [] := by
  have h1 : (flush_vi_batch st).1 = [] := by
    unfold flush_vi_batch
    rw [if_neg hst]
  exact ⟨by simp [flush_vi_batch], h1, by rw [h1]; simp [flush_vi_batch]⟩

/-! ## C8: reaching the max batch size triggers a synchronous flush -/

/-- **C8.** When the detections accumulated for a stream (previous
content plus the new event's detections) reach `VI_MAX_BATCH_SIZE`, the
ingestion path flushes synchronously: a summary for that stream is
emitted on the ingestion path itself and the stream's batch is gone from
the store when it returns. -/
theorem ingest_reaching_max_flushes_synchronously
    (maxB : Nat) (st : Store) (key : String) (vi : List FrameData) (now : ℚ)
    (h : maxB ≤ ((lookupB st key).getD emptyBatch).detections.length
          + (viNewDets vi).length) :
    (ingestVI maxB st key vi now).1 = [] ∧
    key ∈ (ingestVI maxB st key vi now).2.map Prod.fst := by
  have hlen : ((lookupB (appendStage st key vi now) key).getD emptyBatch).detections.length
      = ((lookupB st key).getD emptyBatch).detections.length + (viNewDets vi).length := by
    rw [lookupB_appendStage]
    simp
  simp only [ingestVI]
  rw [hlen, if_pos h]
  rw [flush_vi_batch, if_neg (appendStage_ne_nil st key vi now)]
  refine ⟨rfl, ?_⟩
  rw [List.map_map]
  have : (Prod.fst ∘ fun e : String × Batch => (e.1, e.2.detections.length))
      = Prod.fst := rfl
  rw [this]
  unfold appendStage
  exact mem_map_fst_setB _ _ _

/-! ## C9: ingestion normalizes every incoming detection, dropping none -/

/-- **C9.** The ingestion path appends one normalized record per
incoming detection — none is dropped — and every stored record has all
four keys, with the `.get` defaults `'unknown'`, `0`, `0` and `{}` for
missing fields (in particular a stored detection always has `frame_id`,
and an absent bbox is stored as the empty dict, not skipped). -/
theorem ingestion_normalizes_and_drops_nothing
    (st : Store) (key : String) (vi : List FrameData) (now : ℚ) (r : Detection) :
    ((lookupB (appendStage st key vi now) key).getD emptyBatch).detections
      = ((lookupB st key).getD emptyBatch).detections ++ viNewDets vi ∧
    viNewDets vi = (vi.flatMap fun f => f.detections?.getD []).map normalizeDet ∧
    (normalizeDet r).class_name? = some (r.class_name?.getD "unknown") ∧
    (normalizeDet r).confidence? = some (r.confidence?.getD 0) ∧
    (normalizeDet r).frame_id? = some (r.frame_id?.getD 0) ∧
    (normalizeDet r).bbox? = some (r.bbox?.getD (BVal.dict ⟨none, none, none, none⟩)) := by
  refine ⟨?_, ?_, rfl, rfl, rfl, rfl⟩
  · rw [lookupB_appendStage]
    rfl
  · unfold viNewDets
    rw [List.map_flatMap]

/-! ## Witnesses -/

/-- The box `{x:0, y:0, w:10, h:10}`. -/
def exBoxA : BBox := ⟨some 0, some 0, some 10, some 10⟩

/-- The box `{x:1, y:1, w:10, h:10}`. -/
def exBoxB : BBox := ⟨some 1, some 1, some 10, some 10⟩

/-- The box `{x:20, y:20, w:10, h:10}`, disjoint from `exBoxA`. -/
def exBoxFar : BBox := ⟨some 20, some 20, some 10, some 10⟩

/-- A raw incoming detection dict with no keys at all. -/
def exRawDet : Detection := ⟨none, none, none, none⟩

/-- A `vi_data` list with one frame carrying one detection. -/
def exViData : List FrameData := [⟨some [exRawDet]⟩]

/-- Witness for C3's amended theorem at a concrete input. -/
theorem ingest_with_detections_witness :
    viNewDets exViData ≠ [] ∧ [normalizeDet exRawDet] ≠ [] :=
  ⟨by with_unfolding_all decide,
   ingest_with_detections_leaves_nonempty_entry 10000 [] "live|cam" exViData 0
     (by with_unfolding_all decide)
     { detections := [normalizeDet exRawDet], first_seen := some 0, last_seen := some 0 }
     (by with_unfolding_all decide)⟩

/-- Witness for C4's theorem at a concrete non-empty store. -/
theorem flush_empty_noop_witness :
    ([("live|cam", emptyBatch)] : Store) ≠ [] ∧
    ((flush_vi_batch ([] : Store)).2 = [] ∧
      (flush_vi_batch [("live|cam", emptyBatch)]).1 = [] ∧
      (flush_vi_batch (flush_vi_batch [("live|cam", emptyBatch)]).1).2 = []) :=
  ⟨by decide, flush_empty_noop_and_flush_drains [("live|cam", emptyBatch)] (by decide)⟩

/-- Witness for C5's theorem at two disjoint boxes. -/
theorem calculate_iou_degenerate_witness :
    degenerateIoU exBoxA exBoxFar ∧ calculate_iou exBoxA exBoxFar = 0 :=
  ⟨by unfold degenerateIoU noOverlap; with_unfolding_all decide,
   calculate_iou_degenerate exBoxA exBoxFar
     (by unfold degenerateIoU noOverlap; with_unfolding_all decide)⟩

/-- Witness for C6's theorem at concrete boxes. -/
theorem calculate_iou_symm_and_self_witness :
    (hasKeys exBoxA = true ∧ hasKeys exBoxB = true ∧ 0 < exBoxA.w?.getD 0) ∧
    (calculate_iou exBoxA exBoxB = calculate_iou exBoxB exBoxA ∧
      calculate_iou exBoxA exBoxA = 1) :=
  ⟨⟨by decide, by decide, by with_unfolding_all decide⟩,
   calculate_iou_symm_and_self exBoxA exBoxB exBoxA (by decide) (by decide) (by decide)
     (by with_unfolding_all decide) (by with_unfolding_all decide)⟩

/-- Witness for C8's theorem: max batch size 1, reached by one incoming
detection. -/
theorem ingest_reaching_max_witness :
    (1 ≤ ((lookupB ([] : Store) "live|cam").getD emptyBatch).detections.length
        + (viNewDets exViData).length) ∧
    ((ingestVI 1 [] "live|cam" exViData 0).1 = [] ∧
      "live|cam" ∈ (ingestVI 1 [] "live|cam" exViData 0).2.map Prod.fst) :=
  ⟨by with_unfolding_all decide,
   ingest_reaching_max_flushes_synchronously 1 [] "live|cam" exViData 0
     (by with_unfolding_all decide)⟩

/-! ## Tracker invariants

The tracker state invariant: active track ids are distinct and were all
created earlier (`1 ≤ id < next_track_id`), and the lifetime set
`all_tracks` is exactly the ids handed out so far (`{1, …, next-1}`),
because every created id is added to it and nothing ever removes from it. -/

def TInv (st : TState) : Prop :=
  (st.active.map Prod.fst).Nodup ∧
  (∀ k ∈ st.active.map Prod.fst, 1 ≤ k ∧ k < st.next_track_id) ∧
  st.all_tracks = Finset.Ico 1 st.next_track_id ∧
  1 ≤ st.next_track_id

lemma TInv_init : TInv initTState :=
  ⟨List.nodup_nil, by simp [initTState], by simp [initTState], le_refl 1⟩

/-- A list of distinct naturals contained in another list is no longer
than it. -/
lemma nodup_subset_length {l m : List ℕ} (hn : l.Nodup) (hs : l ⊆ m) :
    l.length ≤ m.length :=
  (hn.subperm hs).length_le

/-- The in-place bbox update leaves the active dict's key list
unchanged. -/
lemma map_fst_updateBBox (l : List (Nat × Track)) (tid : Nat) (b : BBox)
    (fid : Int) : (updateBBox l tid b fid).map Prod.fst = l.map Prod.fst := by
  unfold updateBBox
  rw [List.map_map]
  congr 1
  funext q
  by_cases h : q.1 = tid <;> simp [h]

/-- Every candidate's track id is a key of the active dict it was built
from. -/
lemma mem_matchCandidates {thr : ℚ} {active : List (Nat × Track)}
    {cur : List Detection} {c : ℚ × Nat × Nat}
    (hc : c ∈ matchCandidates thr active cur) :
    c.2.1 ∈ active.map Prod.fst := by
  unfold matchCandidates at hc
  rw [List.mem_flatMap] at hc
  obtain ⟨p, _, hc⟩ := hc
  rw [List.mem_filterMap] at hc
  obtain ⟨q, hq, hc⟩ := hc
  simp only at hc
  split at hc
  · exact absurd hc (by simp)
  · split at hc
    · obtain rfl := (Option.some_inj.mp hc).symm
      exact List.mem_map_of_mem Prod.fst hq
    · exact absurd hc (by simp)

/-- Sorting the candidates adds no candidate. -/
lemma mem_sortCandidates {l : List (ℚ × Nat × Nat)} {c : ℚ × Nat × Nat}
    (h : c ∈ sortCandidates l) : c ∈ l :=
  (List.mem_insertionSort _).mp h

/-- Invariant of the greedy assignment loop over an active dict with key
list `A`: keys are untouched, the matched track ids are distinct keys of
`A`, and tracks and detections are matched one-to-one. -/
def GInv (A : List Nat) (ms : MState) : Prop :=
  ms.active.map Prod.fst = A ∧
  ms.matchedT.Nodup ∧
  ms.matchedT.length = ms.matchedD.length ∧
  ∀ x ∈ ms.matchedT, x ∈ A

lemma greedy_fold_inv (fid : Int) (cur : List Detection) (A : List Nat) :
    ∀ (cs : List (ℚ × Nat × Nat)) (ms : MState),
      (∀ c ∈ cs, c.2.1 ∈ A) → GInv A ms →
      GInv A (cs.foldl (greedyStep fid cur) ms) := by
  intro cs
  induction cs with
  | nil => exact fun ms _ h => h
  | cons c rest ih =>
    intro ms hcs hms
    rw [List.foldl_cons]
    refine ih _ (fun x hx => hcs x (List.mem_cons_of_mem _ hx)) ?_
    obtain ⟨hk, hn, hl, hsub⟩ := hms
    unfold greedyStep
    split
    · exact ⟨hk, hn, hl, hsub⟩
    · rename_i hmem
      push_neg at hmem
      refine ⟨?_, ?_, ?_, ?_⟩
      · rw [map_fst_updateBBox]; exact hk
      · exact List.nodup_cons.mpr ⟨hmem.1, hn⟩
      · simp [hl]
      · intro x hx
        rcases List.mem_cons.mp hx with rfl | hx
        · exact hcs c (List.mem_cons_self c rest)
        · exact hsub x hx

/-- Creating one fresh track preserves the state invariant: the fresh id
is appended to the active dict, recorded in the lifetime set, and the id
counter advances. -/
lemma TInv_create (st : TState) (tr : Track) (hI : TInv st) :
    TInv { active := st.active ++ [(st.next_track_id, tr)],
           all_tracks := insert st.next_track_id st.all_tracks,
           next_track_id := st.next_track_id + 1 } := by
  obtain ⟨hnd, hbd, hall, hpos⟩ := hI
  refine ⟨?_, ?_, ?_, ?_⟩
  · show (List.map Prod.fst (st.active ++ [(st.next_track_id, tr)])).Nodup
    rw [List.map_append, List.nodup_append]
    refine ⟨hnd, by simp, ?_⟩
    intro k hk hk2
    simp only [List.map_cons, List.map_nil, List.mem_cons,
      List.not_mem_nil, or_false] at hk2
    subst hk2
    exact absurd (hbd _ hk).2 (lt_irrefl _)
  · show ∀ k ∈ List.map Prod.fst (st.active ++ [(st.next_track_id, tr)]),
      1 ≤ k ∧ k < st.next_track_id + 1
    intro k hk
    rw [List.map_append, List.mem_append] at hk
    rcases hk with hk | hk
    · obtain ⟨hk1, hk2⟩ := hbd k hk
      exact ⟨hk1, by omega⟩
    · simp only [List.map_cons, List.map_nil, List.mem_cons,
        List.not_mem_nil, or_false] at hk
      subst hk
      exact ⟨hpos, by omega⟩
  · show insert st.next_track_id st.all_tracks = Finset.Ico 1 (st.next_track_id + 1)
    rw [hall, Nat.Ico_succ_right_eq_insert_Ico hpos]
  · show 1 ≤ st.next_track_id + 1
    omega

/-- Invariant preservation and id accounting for the new-track loop:
the state invariant is preserved, `next_track_id` is monotone, and the
number of ids handed out is the number of unmatched detections. -/
lemma create_fold_spec (fid : Int) (D : List Nat) :
    ∀ (l : List (Nat × Detection)) (st : TState), TInv st →
      TInv (l.foldl (createStep fid D) st) ∧
      st.next_track_id ≤ (l.foldl (createStep fid D) st).next_track_id ∧
      (l.foldl (createStep fid D) st).next_track_id
          + l.countP (fun p => p.1 ∈ D) = st.next_track_id + l.length := by
  intro l
  induction l with
  | nil => exact fun st h => ⟨h, le_refl _, by simp⟩
  | cons p rest ih =>
    intro st hI
    rw [List.foldl_cons, List.countP_cons, List.length_cons]
    by_cases hp : p.1 ∈ D
    · have hstep : createStep fid D st p = st := by
        unfold createStep
        rw [if_pos hp]
      rw [hstep]
      obtain ⟨h1, h2, h3⟩ := ih st hI
      refine ⟨h1, h2, ?_⟩
      rw [if_pos (by simpa using hp)]
      omega
    · have hstep : createStep fid D st p =
          { active := st.active ++ [(st.next_track_id, ⟨detBBox p.2, fid, detClass p.2⟩)],
            all_tracks := insert st.next_track_id st.all_tracks,
            next_track_id := st.next_track_id + 1 } := by
        unfold createStep
        rw [if_neg hp]
      rw [hstep]
      obtain ⟨h1, h2, h3⟩ := ih _ (TInv_create st ⟨detBBox p.2, fid, detClass p.2⟩ hI)
      refine ⟨h1, ?_, ?_⟩
      · refine le_trans ?_ h2
        show st.next_track_id ≤ st.next_track_id + 1
        omega
      · rw [if_neg (by simpa using hp)]
        have h3' : (List.foldl (createStep fid D)
            { active := st.active ++ [(st.next_track_id, ⟨detBBox p.2, fid, detClass p.2⟩)],
              all_tracks := insert st.next_track_id st.all_tracks,
              next_track_id := st.next_track_id + 1 } rest).next_track_id
              + List.countP (fun p => decide (p.1 ∈ D)) rest
            = st.next_track_id + 1 + rest.length := h3
        omega

/-- The greedy assignment stage satisfies its invariant, starting from
no matches over the expired-filtered active dict. -/
lemma assignStage_spec (t : ℚ) (fid : Int) (cur : List Detection)
    (A : List (Nat × Track)) :
    GInv (A.map Prod.fst)
      ((sortCandidates (matchCandidates t A cur)).foldl (greedyStep fid cur)
        ⟨[], [], A⟩) := by
  apply greedy_fold_inv
  · exact fun c hc => mem_matchCandidates (mem_sortCandidates hc)
  · exact ⟨rfl, List.nodup_nil, rfl, by simp⟩

/-- The number of detection indices of a frame that appear in a matched
list is at most the length of that list (the indices are distinct). -/
lemma hits_le (cur : List Detection) (D : List Nat) :
    cur.enum.countP (fun p => p.1 ∈ D) ≤ D.length := by
  rw [List.countP_eq_length_filter]
  have h1 : (cur.enum.filter (fun p => decide (p.1 ∈ D))).length
      = ((cur.enum.filter (fun p => decide (p.1 ∈ D))).map Prod.fst).length := by
    rw [List.length_map]
  rw [h1]
  apply nodup_subset_length
  · have hsub : List.Sublist
        ((cur.enum.filter (fun p => decide (p.1 ∈ D))).map Prod.fst)
        (cur.enum.map Prod.fst) := (List.filter_sublist _).map _
    have hnd : (cur.enum.map Prod.fst).Nodup := by
      rw [List.enum_map_fst]; exact List.nodup_range _
    exact hnd.sublist hsub
  · intro x hx
    rw [List.mem_map] at hx
    obtain ⟨p, hp, rfl⟩ := hx
    simpa using (List.mem_filter.mp hp).2

/-- The frame-step specification: the state invariant is preserved, the
id counter is monotone, the lifetime track set never loses an element,
and after the step at least `|cur|` tracks have been created in total
(each detection of the frame consumed a distinct existing track or
spawned a fresh one). -/
lemma stepFrame_spec (e : Int) (t : ℚ) (st : TState) (fid : Int)
    (cur : List Detection) (hI : TInv st) :
    TInv (stepFrame e t st fid cur) ∧
    st.next_track_id ≤ (stepFrame e t st fid cur).next_track_id ∧
    st.all_tracks ⊆ (stepFrame e t st fid cur).all_tracks ∧
    cur.length + 1 ≤ (stepFrame e t st fid cur).next_track_id := by
  obtain ⟨hnd, hbd, hall, hpos⟩ := hI
  simp only [stepFrame]
  generalize hA : List.filter (fun q => decide (fid - q.2.last_frame ≤ e)) st.active = A
  have hAsub : List.Sublist (A.map Prod.fst) (st.active.map Prod.fst) := by
    rw [← hA]; exact (List.filter_sublist _).map _
  have hAnd : (A.map Prod.fst).Nodup := hnd.sublist hAsub
  have hAbd : ∀ k ∈ A.map Prod.fst, 1 ≤ k ∧ k < st.next_track_id :=
    fun k hk => hbd k (hAsub.subset hk)
  obtain ⟨hkeys, hTnd, hlen, hTsub⟩ := assignStage_spec t fid cur A
  set ms := (sortCandidates (matchCandidates t A cur)).foldl (greedyStep fid cur)
    ⟨[], [], A⟩ with hms
  have hI2 : TInv { st with active := ms.active } := by
    refine ⟨?_, ?_, hall, hpos⟩
    · show (ms.active.map Prod.fst).Nodup
      rw [hkeys]; exact hAnd
    · show ∀ k ∈ ms.active.map Prod.fst, 1 ≤ k ∧ k < st.next_track_id
      rw [hkeys]; exact hAbd
  unfold createTracks
  obtain ⟨hc1, hc2, hc3⟩ :=
    create_fold_spec fid ms.matchedD cur.enum { st with active := ms.active } hI2
  refine ⟨hc1, hc2, ?_, ?_⟩
  · obtain ⟨_, _, hfall, _⟩ := hc1
    calc st.all_tracks = Finset.Ico 1 st.next_track_id := hall
      _ ⊆ Finset.Ico 1 (List.foldl (createStep fid ms.matchedD)
            { st with active := ms.active } cur.enum).next_track_id :=
          Finset.Ico_subset_Ico le_rfl hc2
      _ = (List.foldl (createStep fid ms.matchedD)
            { st with active := ms.active } cur.enum).all_tracks := hfall.symm
  · have hhits := hits_le cur ms.matchedD
    have hTlen : ms.matchedT.length ≤ st.next_track_id - 1 := by
      have hsub2 : ms.matchedT ⊆ (Finset.Ico 1 st.next_track_id).toList := by
        intro x hx
        rw [Finset.mem_toList, Finset.mem_Ico]
        exact hAbd x (hTsub x hx)
      calc ms.matchedT.length
          ≤ (Finset.Ico 1 st.next_track_id).toList.length :=
            nodup_subset_length hTnd hsub2
        _ = (Finset.Ico 1 st.next_track_id).card := Finset.length_toList _
        _ = st.next_track_id - 1 := by rw [Nat.card_Ico]
    have henl : cur.enum.length = cur.length := List.enum_length
    have hst2 : ({ st with active := ms.active } : TState).next_track_id
        = st.next_track_id := rfl
    rw [hst2] at hc3
    omega

/-- The whole frame loop: invariant preserved, id counter monotone, and
after the loop at least `|group f|` tracks exist for every processed
frame `f`. -/
lemma runFold_spec (e : Int) (t : ℚ) (g : Int → List Detection) :
    ∀ (L : List Int) (st : TState), TInv st →
      TInv (L.foldl (fun s f => stepFrame e t s f (g f)) st) ∧
      st.next_track_id ≤ (L.foldl (fun s f => stepFrame e t s f (g f)) st).next_track_id ∧
      ∀ f ∈ L, (g f).length + 1
        ≤ (L.foldl (fun s f => stepFrame e t s f (g f)) st).next_track_id := by
  intro L
  induction L with
  | nil => exact fun st h => ⟨h, le_refl _, by simp⟩
  | cons f rest ih =>
    intro st hI
    rw [List.foldl_cons]
    obtain ⟨hs1, hs2, _, hs4⟩ := stepFrame_spec e t st f (g f) hI
    obtain ⟨hr1, hr2, hr3⟩ := ih _ hs1
    refine ⟨hr1, le_trans hs2 hr2, ?_⟩
    intro fy hfy
    rcases List.mem_cons.mp hfy with rfl | hfy
    · exact le_trans hs4 hr2
    · exact hr3 fy hfy

/-- Bounding a `foldl max`. -/
lemma foldl_max_le (B : ℕ) :
    ∀ (l : List ℕ) (a : ℕ), a ≤ B → (∀ x ∈ l, x ≤ B) → l.foldl max a ≤ B := by
  intro l
  induction l with
  | nil => exact fun a ha _ => ha
  | cons x rest ih =>
    intro a ha h
    rw [List.foldl_cons]
    exact ih _ (max_le ha (h x (List.mem_cons_self x rest)))
      (fun y hy => h y (List.mem_cons_of_mem _ hy))

/-! ## C7: expiry only affects the active set; unique_count counts all
tracks ever created -/

/-- **C7.** A frame step never removes an element from the lifetime
track set (expiry only drops tracks from the *active* dict), the tracker
invariant is preserved, and the reported `unique_count` is exactly the
total number of track ids ever handed out during the run
(`next_track_id - 1`) — so it is unaffected by expiry and can only grow
as more frames are processed. -/
theorem expiry_only_removes_from_active_set
    (e : Int) (t : ℚ) (st : TState) (fid : Int) (cur : List Detection)
    (dets : List Detection) (hI : TInv st) :
    st.all_tracks ⊆ (stepFrame e t st fid cur).all_tracks ∧
    TInv (stepFrame e t st fid cur) ∧
    (track_objects e t dets).unique_count + 1 = (runFrames e t dets).next_track_id := by
  obtain ⟨h1, _, h3, _⟩ := stepFrame_spec e t st fid cur hI
  refine ⟨h3, h1, ?_⟩
  have hru : runFrames e t dets = (sortedFrames dets).foldl
      (fun s f => stepFrame e t s f (frameGroup dets f)) initTState := rfl
  obtain ⟨⟨_, _, hfall, hfpos⟩, _, _⟩ :=
    runFold_spec e t (frameGroup dets) (sortedFrames dets) initTState TInv_init
  rw [← hru] at hfall hfpos
  by_cases hd : dets = []
  · subst hd
    simp [track_objects, runFrames, sortedFrames, frameIdsOf, grouped, initTState]
  · by_cases hg : grouped dets = []
    · have hfi : sortedFrames dets = [] := by
        simp [sortedFrames, frameIdsOf, hg]
      have hrun : runFrames e t dets = initTState := by rw [hru, hfi]; rfl
      have htr : track_objects e t dets = ⟨0, 0, 0, 0⟩ := by
        unfold track_objects
        rw [if_neg hd, if_pos hg]
      rw [htr, hrun]
      rfl
    · have htr : (track_objects e t dets).unique_count
          = (runFrames e t dets).all_tracks.card := by
        unfold track_objects
        rw [if_neg hd, if_neg hg]
      rw [htr, hfall, Nat.card_Ico]
      omega

/-- Witness for C7's theorem at a concrete state and batch. -/
theorem expiry_only_removes_witness :
    TInv initTState ∧
    (initTState.all_tracks ⊆ (stepFrame 30 (3/10) initTState 1 [exDet1]).all_tracks ∧
      TInv (stepFrame 30 (3/10) initTState 1 [exDet1]) ∧
      (track_objects 30 (3/10) [exDet1]).unique_count + 1
        = (runFrames 30 (3/10) [exDet1]).next_track_id) :=
  ⟨TInv_init,
   expiry_only_removes_from_active_set 30 (3/10) initTState 1 [exDet1] [exDet1] TInv_init⟩

/-! ## C10: unique_count dominates peak_occupancy -/

/-- **C10.** For every detection list, `unique_count ≥ peak_occupancy`:
each detection of a frame either consumes a distinct previously-created
track or spawns a new one, so the fullest frame witnesses at least that
many lifetime tracks. -/
theorem unique_count_ge_peak_occupancy (e : Int) (t : ℚ) (dets : List Detection) :
    (track_objects e t dets).peak_occupancy ≤ (track_objects e t dets).unique_count := by
  by_cases hd : dets = []
  · simp [hd, track_objects]
  · by_cases hg : grouped dets = []
    · unfold track_objects
      rw [if_neg hd, if_pos hg]
    · unfold track_objects
      rw [if_neg hd, if_neg hg]
      show ((sortedFrames dets).map fun f => (frameGroup dets f).length).foldl max 0
        ≤ (runFrames e t dets).all_tracks.card
      have hru : runFrames e t dets = (sortedFrames dets).foldl
          (fun s f => stepFrame e t s f (frameGroup dets f)) initTState := rfl
      obtain ⟨⟨_, _, hfall, hfpos⟩, _, hbound⟩ :=
        runFold_spec e t (frameGroup dets) (sortedFrames dets) initTState TInv_init
      rw [← hru] at hfall hfpos hbound
      rw [hfall, Nat.card_Ico]
      apply foldl_max_le
      · exact Nat.zero_le _
      · intro x hx
        rw [List.mem_map] at hx
        obtain ⟨f, hf, rfl⟩ := hx
        have := hbound f hf
        omega

end WS
